import Mathlib

/-
Shallow embedding of src/speedread_web.py (RSVP/ORP speed-reading engine).

Strings are modelled as `List Char`.  Python/JS regex character classes are
modelled for the ASCII range (the tokenizer's word class in the source is
explicitly ASCII `[A-Za-z0-9]`; Python's `\s` and `\w` and `str.isalnum` are
modelled by their ASCII parts).  Machine floats in the timing model are
modelled by `ℚ` (all constants involved are exactly representable and the
claims concern exact millisecond values).

Layout: all definitions first, then all lemmas and claim theorems.
-/

/-- The apostrophe character (ASCII 39), named to keep literals readable. -/
def aposChar : Char := Char.ofNat 39

/-- The opening-brace character (ASCII 123). -/
def obraceChar : Char := Char.ofNat 123

/-- The closing-brace character (ASCII 125). -/
def cbraceChar : Char := Char.ofNat 125

/-- ASCII part of Python's and JavaScript's `\s` class. -/
def isSpaceB (c : Char) : Bool :=
  c = ' ' || c = '\t' || c = '\n' || c = '\r' || c = '\x0b' || c = '\x0c'

/-- ASCII part of the `\w` class: alphanumeric or underscore. -/
def isWordCharB (c : Char) : Bool := c.isAlphanum || c = '_'

/-- The paragraph-break marker token `"<PARA>"` used by the source. -/
def paraTok : List Char := ['<', 'P', 'A', 'R', 'A', '>']

/-- Python `str.split()` / splitting on whitespace with empty parts dropped,
written with an accumulator for the word currently being read (reversed). -/
def splitWsAux : List Char → List Char → List (List Char)
  | cur, [] => if cur = [] then [] else [cur.reverse]
  | cur, c :: cs =>
    if isSpaceB c then
      if cur = [] then splitWsAux [] cs else cur.reverse :: splitWsAux [] cs
    else splitWsAux (c :: cur) cs

/-- Split a string on whitespace, dropping empty parts. -/
def splitWs (s : List Char) : List (List Char) := splitWsAux [] s

/-- The one-character punctuation/symbol class of `TOKEN_RE`:
`[.,;:!?()\[\]{}"“”'‘’/\\]`. -/
def punctClassB (c : Char) : Bool :=
  c = '.' || c = ',' || c = ';' || c = ':' || c = '!' || c = '?' ||
  c = '(' || c = ')' || c = '[' || c = ']' || c = obraceChar || c = cbraceChar ||
  c = '"' || c = '“' || c = '”' || c = aposChar || c = '‘' || c = '’' ||
  c = '/' || c = '\\'

/-- The apostrophe groups `(?:['’][A-Za-z0-9]+)*` of the word alternative of
`TOKEN_RE`.  Returns (consumed characters, rest).  Fuel-driven structural
recursion; each group consumes at least two characters, so fuel equal to the
input length is always sufficient. -/
def apRunF : Nat → List Char → List Char × List Char
  | 0, s => ([], s)
  | fuel + 1, c :: d :: rest =>
    if (c = aposChar ∨ c = '’') ∧ d.isAlphanum then
      let run := (d :: rest).takeWhile Char.isAlphanum
      let r2 := (d :: rest).dropWhile Char.isAlphanum
      let pr := apRunF fuel r2
      (c :: (run ++ pr.1), pr.2)
    else ([], c :: d :: rest)
  | _ + 1, s => ([], s)

/-- The hyphen groups `(?:-[A-Za-z0-9]+)*` of the word alternative of
`TOKEN_RE`. -/
def hyRunF : Nat → List Char → List Char × List Char
  | 0, s => ([], s)
  | fuel + 1, c :: d :: rest =>
    if c = '-' ∧ d.isAlphanum then
      let run := (d :: rest).takeWhile Char.isAlphanum
      let r2 := (d :: rest).dropWhile Char.isAlphanum
      let pr := hyRunF fuel r2
      (c :: (run ++ pr.1), pr.2)
    else ([], c :: d :: rest)
  | _ + 1, s => ([], s)

/-- `TOKEN_RE.finditer`: scan the text, at each position trying the regex
alternatives in order: paragraph break `\n{2,}`, word
`[A-Za-z0-9]+(?:['’][A-Za-z0-9]+)*(?:-[A-Za-z0-9]+)*`, ellipsis `\.\.\.`,
dashes `[—–]`, the punctuation class, whitespace `\s+`, fallback any char.
Fuel-driven; each emitted token consumes at least one character and one unit
of fuel, so fuel equal to the input length is always sufficient. -/
def rawTokensF : Nat → List Char → List (List Char)
  | 0, _ => []
  | _ + 1, [] => []
  | fuel + 1, c :: rest =>
    if c = '\n' ∧ rest.head? = some '\n' then
      (c :: rest.takeWhile (fun x => x = '\n')) ::
        rawTokensF fuel (rest.dropWhile (fun x => x = '\n'))
    else if c.isAlphanum then
      let run := (c :: rest).takeWhile Char.isAlphanum
      let r1 := (c :: rest).dropWhile Char.isAlphanum
      let ap := apRunF r1.length r1
      let hy := hyRunF ap.2.length ap.2
      (run ++ ap.1 ++ hy.1) :: rawTokensF fuel hy.2
    else if c = '.' ∧ rest.take 2 = ['.', '.'] then
      ['.', '.', '.'] :: rawTokensF fuel (rest.drop 2)
    else if c = '—' ∨ c = '–' then [c] :: rawTokensF fuel rest
    else if punctClassB c then [c] :: rawTokensF fuel rest
    else if isSpaceB c then
      (c :: rest.takeWhile isSpaceB) :: rawTokensF fuel (rest.dropWhile isSpaceB)
    else [c] :: rawTokensF fuel rest

/-- `split_preserving_whitespace`: the list of `TOKEN_RE` matches, in order. -/
def split_preserving_whitespace (s : List Char) : List (List Char) :=
  rawTokensF s.length s

/-- Python `str.strip()`: drop whitespace from both ends. -/
def stripB (l : List Char) : List Char :=
  ((l.dropWhile isSpaceB).reverse.dropWhile isSpaceB).reverse

/-- The `flush_current` closure of `tokenize_for_rsvp`:
append `current.strip()` to the token list when it is non-empty. -/
def flushCurrent (tokens : List (List Char)) (current : List Char) : List (List Char) :=
  if stripB current = [] then tokens else tokens ++ [stripB current]

/-- Python `str.isspace()`: non-empty and all whitespace. -/
def pyIsSpace (t : List Char) : Bool := !t.isEmpty && t.all isSpaceB

/-- Python `"\n\n" in tok`. -/
def containsNlNl : List Char → Bool
  | '\n' :: '\n' :: _ => true
  | _ :: rest => containsNlNl rest
  | [] => false

/-- The trailing/merging punctuation set
`{".", ",", ";", ":", "!", "?", "...", "—", "–"}` of `tokenize_for_rsvp`. -/
def punctSetS1 : List (List Char) :=
  [['.'], [','], [';'], [':'], ['!'], ['?'], ['.', '.', '.'], ['—'], ['–']]

/-- The opening quote/bracket set
`{'"', '“', '”', "'", '‘', '’', "(", "[", "{", "/", "\\"}`. -/
def openSetS2 : List (List Char) :=
  [['"'], ['“'], ['”'], [aposChar], ['‘'], ['’'], ['('], ['['], [obraceChar],
   ['/'], ['\\']]

/-- The closing bracket set `{")", "]", "}"}`. -/
def closeSetS3 : List (List Char) := [[')'], [']'], [cbraceChar]]

/-- Python `tokens[-1] += tok`. -/
def appendToLast : List (List Char) → List Char → List (List Char)
  | [], t => [t]
  | [x], t => [x ++ t]
  | x :: xs, t => x :: appendToLast xs t

/-- The main loop of `tokenize_for_rsvp`, threading the emitted token list
and the current word buffer through the raw `TOKEN_RE` matches. -/
def tkLoop : List (List Char) → List (List Char) → List Char → List (List Char)
  | [], tokens, current => flushCurrent tokens current
  | tok :: raw, tokens, current =>
    if tok = [] then tkLoop raw tokens current
    else if pyIsSpace tok then
      if containsNlNl tok then tkLoop raw (flushCurrent tokens current ++ [paraTok]) []
      else tkLoop raw (flushCurrent tokens current) []
    else if tok ∈ punctSetS1 then
      if current ≠ [] then tkLoop raw (flushCurrent tokens (current ++ tok)) []
      else if tokens ≠ [] ∧ tokens.getLast? ≠ some paraTok then
        tkLoop raw (appendToLast tokens tok) current
      else tkLoop raw (tokens ++ [tok]) current
    else if tok ∈ openSetS2 then tkLoop raw tokens (current ++ tok)
    else if tok ∈ closeSetS3 then
      if current ≠ [] then tkLoop raw (flushCurrent tokens (current ++ tok)) []
      else if tokens ≠ [] ∧ tokens.getLast? ≠ some paraTok then
        tkLoop raw (appendToLast tokens tok) current
      else tkLoop raw (tokens ++ [tok]) current
    else tkLoop raw (flushCurrent tokens (current ++ tok)) []

/-- The final compaction pass of `tokenize_for_rsvp`: collapse consecutive
`"<PARA>"` markers. -/
def compactGo : List (List Char) → List (List Char) → List (List Char)
  | acc, [] => acc
  | acc, t :: ts =>
    if t = paraTok ∧ acc.getLast? = some paraTok then compactGo acc ts
    else compactGo (acc ++ [t]) ts

/-- `tokenize_for_rsvp`: raw `TOKEN_RE` scan, merging loop, compaction. -/
def tokenize_for_rsvp (text : List Char) : List (List Char) :=
  compactGo [] (tkLoop (split_preserving_whitespace text) [] [])

/-- Lowercase an ASCII letter (for the case-insensitive URL regex). -/
def lowerAscii (c : Char) : Char :=
  if 'A' ≤ c ∧ c ≤ 'Z' then Char.ofNat (c.toNat + 32) else c

/-- Match a lowercase pattern case-insensitively at the front of a string,
returning the rest on success. -/
def dropPatCI : List Char → List Char → Option (List Char)
  | [], s => some s
  | _ :: _, [] => none
  | p :: ps, c :: cs => if lowerAscii c = p then dropPatCI ps cs else none

/-- At least one non-space character follows (the `\S+` of `URL_RE`). -/
def startsNonspace : List Char → Bool
  | [] => false
  | c :: _ => !isSpaceB c

def httpPat : List Char := ['h', 't', 't', 'p', ':', '/', '/']

def httpsPat : List Char := ['h', 't', 't', 'p', 's', ':', '/', '/']

def wwwPat : List Char := ['w', 'w', 'w', '.']

/-- One position of `URL_RE = (https?://\S+|www\.\S+)`, case-insensitive. -/
def urlMatchHere (s : List Char) : Bool :=
  (match dropPatCI httpPat s with | some r => startsNonspace r | none => false) ||
  (match dropPatCI httpsPat s with | some r => startsNonspace r | none => false) ||
  (match dropPatCI wwwPat s with | some r => startsNonspace r | none => false)

/-- `is_url_like`: `URL_RE.search` anywhere in the token. -/
def isUrlLike : List Char → Bool
  | [] => false
  | c :: rest => urlMatchHere (c :: rest) || isUrlLike rest

/-- Python `" ".join(current)`. -/
def joinSp : List (List Char) → List Char
  | [] => []
  | [c] => c
  | c :: c2 :: cs => c ++ ' ' :: joinSp (c2 :: cs)

/-- `re.search(r"[.!?;:]$", tok)`: the phrase-mode early-flush test of
`build_chunks` (and `/[.!?;:]$/` in `buildChunksClient`). -/
def endsPhraseB (t : List Char) : Bool :=
  match t.getLast? with
  | some c => c = '.' || c = '!' || c = '?' || c = ';' || c = ':'
  | none => false

/-- The phrase-mode accumulation loop of `build_chunks`. -/
def phraseGo (chunk_size : Nat) (cur : List (List Char)) :
    List (List Char) → List (List Char)
  | [] => if cur = [] then [] else [joinSp cur]
  | t :: ts =>
    if t = paraTok then
      if cur = [] then paraTok :: phraseGo chunk_size [] ts
      else joinSp cur :: paraTok :: phraseGo chunk_size [] ts
    else
      if endsPhraseB t ∨ cur.length + 1 ≥ max 3 chunk_size then
        joinSp (cur ++ [t]) :: phraseGo chunk_size [] ts
      else phraseGo chunk_size (cur ++ [t]) ts

/-- The fixed-mode accumulation loop of `build_chunks`. -/
def fixedGo (chunk_size : Nat) (cur : List (List Char)) :
    List (List Char) → List (List Char)
  | [] => if cur = [] then [] else [joinSp cur]
  | t :: ts =>
    if t = paraTok then
      if cur = [] then paraTok :: fixedGo chunk_size [] ts
      else joinSp cur :: paraTok :: fixedGo chunk_size [] ts
    else
      if cur.length + 1 ≥ max 1 chunk_size then
        joinSp (cur ++ [t]) :: fixedGo chunk_size [] ts
      else fixedGo chunk_size (cur ++ [t]) ts

/-- The `skip_urls` filter of `build_chunks`: keep a token when it is the
paragraph marker or not URL-like. -/
def urlKeepB (t : List Char) : Bool := decide (t = paraTok) || !isUrlLike t

/-- `build_chunks(tokens, chunk_size, phrase_mode, skip_urls)`. -/
def build_chunks (tokens : List (List Char)) (chunk_size : Nat)
    (phrase_mode skip_urls : Bool) : List (List Char) :=
  let toks := if skip_urls then tokens.filter urlKeepB else tokens
  if toks = [] then []
  else if phrase_mode then phraseGo chunk_size [] toks
  else fixedGo chunk_size [] toks

/-- The `core_len` bucket of `compute_orp_index` / `computeOrpIndex`. -/
def bucketIdx (coreLen : Nat) : Nat :=
  if coreLen ≤ 1 then 0
  else if coreLen ≤ 5 then 1
  else if coreLen ≤ 9 then 2
  else if coreLen ≤ 13 then 3
  else 4

/-- `compute_orp_index(word)` (Python): strip non-word characters from both
ends to get `core` (falling back to the whole word when that empties it),
bucket its length, add the number of leading non-alphanumeric characters,
clamp to `[0, len(word)-1]`. -/
def compute_orp_index (w : List Char) : Nat :=
  if w = [] then 0
  else
    let core :=
      ((w.dropWhile (fun c => !isWordCharB c)).reverse.dropWhile
        (fun c => !isWordCharB c)).reverse
    let coreLen := if core = [] then w.length else core.length
    let idx := bucketIdx coreLen
    let leading := (w.takeWhile (fun c => !c.isAlphanum)).length
    min (leading + idx) (w.length - 1)

/-- `computeOrpIndex(word)` (client-side JavaScript): same computation with
the `\w` strip and the `[0-9A-Za-z]` leading test. -/
def computeOrpIndex (w : List Char) : Nat :=
  if w = [] then 0
  else
    let core :=
      ((w.dropWhile (fun c => !isWordCharB c)).reverse.dropWhile
        (fun c => !isWordCharB c)).reverse
    let coreLen := if core = [] then w.length else core.length
    let idx := bucketIdx coreLen
    let leading := (w.takeWhile (fun c => !c.isAlphanum)).length
    min (leading + idx) (w.length - 1)

/-- Modelled from the claim (C8): pivot index computed from the length after
stripping only the LEADING non-word characters, adding back the count of
stripped leading characters, clamped.  This is what the claim's words say;
the source strips both ends. -/
def orpIndexClaimC8 (w : List Char) : Nat :=
  if w = [] then 0
  else
    let strippedCount := (w.takeWhile (fun c => !isWordCharB c)).length
    let coreLen := w.length - strippedCount
    min (strippedCount + bucketIdx coreLen) (w.length - 1)

/-- The amended C8 formula, written from the corrected spec wording: bucket
of the both-ends-stripped core length (whole word length if the strip empties
the word), plus the count of leading non-alphanumeric characters, clamped to
`[0, len(word)-1]`; `0` for the empty word. -/
def orpIndexAmendedSpec (w : List Char) : Nat :=
  if w = [] then 0
  else
    let leadStripped := w.dropWhile (fun c => !isWordCharB c)
    let core := (leadStripped.reverse.dropWhile (fun c => !isWordCharB c)).reverse
    let coreLen := if core = [] then w.length else core.length
    let leadingNonAlnum := (w.takeWhile (fun c => !c.isAlphanum)).length
    min (leadingNonAlnum + bucketIdx coreLen) (w.length - 1)

/-- The closing quote/bracket class `['”’)\]]` of the pause regexes. -/
def sentCloserB (c : Char) : Bool :=
  c = aposChar || c = '”' || c = '’' || c = ')' || c = ']'

/-- `re.search(r"[.!?](?:['”’)\]]+)?$", chunk)`: the chunk ends with
sentence punctuation optionally followed by closing quotes/brackets.  Because
the two character classes are disjoint, dropping the maximal closer suffix
and testing the next character is equivalent to the regex. -/
def endsSentencePunctB (s : List Char) : Bool :=
  match s.reverse.dropWhile sentCloserB with
  | c :: _ => c = '.' || c = '!' || c = '?'
  | [] => false

/-- `re.search(r"[,;:](?:['”’)\]]+)?$", chunk)`. -/
def endsCommaPunctB (s : List Char) : Bool :=
  match s.reverse.dropWhile sentCloserB with
  | c :: _ => c = ',' || c = ';' || c = ':'
  | [] => false

/-- Python `"..." in chunk`. -/
def hasEllipsisB : List Char → Bool
  | '.' :: '.' :: '.' :: _ => true
  | _ :: rest => hasEllipsisB rest
  | [] => false

/-- `estimate_pause_multiplier(chunk, comma_mult, sentence_mult, para_mult)`
(Python). -/
def estimate_pause_multiplier (chunk : List Char)
    (comma_mult sentence_mult para_mult : ℚ) : ℚ :=
  if chunk = paraTok then max 1 para_mult
  else
    let m1 : ℚ :=
      if endsSentencePunctB chunk then max 1 sentence_mult
      else if endsCommaPunctB chunk then max 1 comma_mult
      else 1
    if hasEllipsisB chunk then max m1 (comma_mult + 1 / 4) else m1

/-- `estimatePauseMultiplier(chunk, commaMult, sentenceMult, paraMult)`
(client-side JavaScript; identical computation). -/
def estimatePauseMultiplier (chunk : List Char)
    (commaMult sentenceMult paraMult : ℚ) : ℚ :=
  if chunk = paraTok then max 1 paraMult
  else
    let m1 : ℚ :=
      if endsSentencePunctB chunk then max 1 sentenceMult
      else if endsCommaPunctB chunk then max 1 commaMult
      else 1
    if hasEllipsisB chunk then max m1 (commaMult + 1 / 4) else m1

/-- Count the `\b\w+\b` matches of a string: the number of maximal runs of
word characters. -/
def cwGo : Bool → List Char → Nat
  | _, [] => 0
  | inWord, c :: rest =>
    if isWordCharB c then
      (if inWord then cwGo true rest else 1 + cwGo true rest)
    else cwGo false rest

/-- `(chunk.match(/\b\w+\b/g) || []).length`. -/
def countWordRuns (s : List Char) : Nat := cwGo false s

/-- `clamp(n, lo, hi) = Math.max(lo, Math.min(hi, n))` on integers. -/
def clampI (x lo hi : Int) : Int := max lo (min hi x)

/-- `clamp(n, lo, hi)` on rationals. -/
def clampQ (x lo hi : ℚ) : ℚ := max lo (min hi x)

/-- The configuration inputs read by the client RSVP code: words per minute,
the three pause multipliers, the per-eye flag, the inter-lane (L/R) delay and
the start-from-right-eye flag. -/
structure RsvpConfig where
  wpm : Int
  commaPause : ℚ
  sentencePause : ℚ
  paraPause : ℚ
  perEyeOn : Bool
  lrDelay : Int
  startRight : Bool

/-- `currentDelayMs()` for a given current chunk: clamp the inputs, take
`base = 60000 / wpm`, multiply by `max(1, wordsInChunk)` and by the pause
multiplier, and return `Math.max(20, Math.floor(delay))`.  The source reads
only the WPM and pause inputs; the per-eye fields of the configuration are
not consulted. -/
def currentDelayMs (cfg : RsvpConfig) (chunk : List Char) : Int :=
  let wpm := clampI cfg.wpm 50 3000
  let commaPause := clampQ cfg.commaPause 1 10
  let sentencePause := clampQ cfg.sentencePause 1 10
  let paraPause := clampQ cfg.paraPause 1 20
  let base : ℚ := 60000 / (wpm : ℚ)
  let wordsInChunk : ℚ := max 1 ((countWordRuns chunk : ℚ))
  let delay := base * wordsInChunk *
    estimatePauseMultiplier chunk commaPause sentencePause paraPause
  max 20 ⌊delay⌋

/-- Modelled from the claim (C9): the display delay with the configured
inter-lane delay (clamped to `[0,1000]` as the source reads it) added
whenever per-eye mode is active, rounded down to a whole millisecond and
floored at 20. -/
def claimedDelayMsC9 (cfg : RsvpConfig) (chunk : List Char) : Int :=
  let wpm := clampI cfg.wpm 50 3000
  let commaPause := clampQ cfg.commaPause 1 10
  let sentencePause := clampQ cfg.sentencePause 1 10
  let paraPause := clampQ cfg.paraPause 1 20
  let base : ℚ := 60000 / (wpm : ℚ)
  let wordsInChunk : ℚ := max 1 ((countWordRuns chunk : ℚ))
  let delay := base * wordsInChunk *
    estimatePauseMultiplier chunk commaPause sentencePause paraPause +
    (if cfg.perEyeOn then ((clampI cfg.lrDelay 0 1000 : Int) : ℚ) else 0)
  max 20 ⌊delay⌋

/-- A display lane (eye) in per-eye split mode. -/
inductive Eye where
  | left : Eye
  | right : Eye
deriving DecidableEq, Repr

/-- The other lane. -/
def otherEye : Eye → Eye
  | .left => .right
  | .right => .left

/-- `stereoChunkEye(index)`: `((index + invert) % 2) === 1 ? "right" :
"left"` with `invert = 1` when starting from the right eye. -/
def stereoChunkEye (startRight : Bool) (index : Nat) : Eye :=
  if (index + (if startRight then 1 else 0)) % 2 = 1 then .right else .left

/-- The word loop of `buildStereoRoundRobinWordHtml`: over the non-space
parts of the chunk, wordish parts (containing a `\w` character) are assigned
a lane from the local word counter, which starts at 0 for every chunk;
non-wordish parts are rendered on both lanes and do not advance the
counter. -/
def rrGo (firstToLeft : Bool) (wc : Nat) : List (List Char) → List Eye
  | [] => []
  | p :: ps =>
    if p.any isWordCharB then
      (if (firstToLeft ∧ wc % 2 = 0) ∨ (¬firstToLeft ∧ wc % 2 = 1)
        then Eye.left else Eye.right) :: rrGo firstToLeft (wc + 1) ps
    else rrGo firstToLeft wc ps

/-- The lane assigned to each wordish part of a chunk by
`buildStereoRoundRobinWordHtml` (paragraph chunks carry no words). -/
def buildStereoRoundRobinWordLanes (startRight : Bool) (index : Nat)
    (chunk : List Char) : List Eye :=
  if chunk = paraTok then []
  else rrGo (stereoChunkEye startRight index = Eye.left) 0 (splitWs chunk)

/-- The word lanes of a whole chunk sequence in word-round-robin mode, in
reading order. -/
def roundRobinAllLanes (startRight : Bool) (chunks : List (List Char)) :
    List Eye :=
  (chunks.enum).flatMap (fun p => buildStereoRoundRobinWordLanes startRight p.1 p.2)

/-- The number of wordish parts of a chunk. -/
def wordishCount (chunk : List Char) : Nat :=
  ((splitWs chunk).filter (fun p => p.any isWordCharB)).length

/-- The lane of word-occurrence `k` counted from a first eye. -/
def wordLaneAt (firstEye : Eye) (k : Nat) : Eye :=
  if k % 2 = 0 then firstEye else otherEye firstEye

/-- The strictly-alternating lane sequence of length `n` starting from
`start` — what the round-robin claim predicts for the word lanes. -/
def altLanes (start : Eye) (n : Nat) : List Eye :=
  (List.range n).map (fun j => wordLaneAt start j)

/-- Whether a lane list strictly alternates. -/
def strictAltB : List Eye → Bool
  | a :: b :: rest => decide (a ≠ b) && strictAltB (b :: rest)
  | _ => true

/-- Reveal orders produced by the stereo builders. -/
inductive Reveal where
  | simul : Reveal
  | stagger : Reveal
  | staggerRightFirst : Reveal
deriving DecidableEq, Repr

/-- The payload of `buildStereoSentenceHtml`: both lanes always receive the
same rendered chunk, and the reveal order encodes which eye is shown
first. -/
structure SentencePayload where
  sameContentBothLanes : Bool
  reveal : Reveal
deriving DecidableEq, Repr

/-- `buildStereoSentenceHtml(displayChunk, orpEnabled)`: paragraph chunks
render `¶` on both lanes with the default stagger; otherwise both lanes get
the same chunk html and the reveal order follows `stereoChunkEye` of the
current chunk index. -/
def buildStereoSentenceHtml (startRight : Bool) (index : Nat)
    (chunk : List Char) : SentencePayload :=
  if chunk = paraTok then ⟨true, .stagger⟩
  else if stereoChunkEye startRight index = Eye.left then ⟨true, .stagger⟩
  else ⟨true, .staggerRightFirst⟩

/-- The eye revealed first by a reveal order (`stagger` shows the left lane
immediately, `stagger-right-first` the right lane; `simul` shows both, taken
as left). -/
def revealFirstEye : Reveal → Eye
  | .stagger => .left
  | .staggerRightFirst => .right
  | .simul => .left

/-- The first-revealed eye of a chunk in sentence per-eye mode. -/
def sentenceModeFirstEye (startRight : Bool) (index : Nat)
    (chunk : List Char) : Eye :=
  revealFirstEye (buildStereoSentenceHtml startRight index chunk).reveal

/-- Modelled from the spec: `sentenceId` does not exist in the source (chunks
are plain strings); per §4.2 of the spec it increments each time a
sentence-ending boundary is crossed and paragraph chunks receive none.  Here
a chunk whose text ends with sentence punctuation (optionally followed by
closing quotes/brackets) closes the current sentence. -/
def sentenceIdsGo (sid : Nat) : List (List Char) → List (Option Nat)
  | [] => []
  | c :: cs =>
    if c = paraTok then none :: sentenceIdsGo sid cs
    else (some sid) :: sentenceIdsGo (if endsSentencePunctB c then sid + 1 else sid) cs

/-- The sentence id of each chunk (spec-modelled, see `sentenceIdsGo`). -/
def chunkSentenceIds (chunks : List (List Char)) : List (Option Nat) :=
  sentenceIdsGo 0 chunks

/-- Look up a sentence id in the seen-assignment list. -/
def findEye (sid : Nat) : List (Nat × Eye) → Option Eye
  | [] => none
  | (s, e) :: rest => if s = sid then some e else findEye sid rest

/-- Modelled from the claim (C5): assign a lane to each first-seen sentence
id by alternating from the start eye; chunks sharing a sentence id share its
lane; paragraph chunks get none. -/
def claimedLanesGo (nextEye : Eye) (seen : List (Nat × Eye)) :
    List (Option Nat) → List (Option Eye)
  | [] => []
  | none :: rest => none :: claimedLanesGo nextEye seen rest
  | some sid :: rest =>
    match findEye sid seen with
    | some e => some e :: claimedLanesGo nextEye seen rest
    | none => some nextEye :: claimedLanesGo (otherEye nextEye) ((sid, nextEye) :: seen) rest

/-- The per-chunk lanes the C5 claim predicts for a chunk sequence. -/
def claimedSentenceLanes (startEye : Eye) (chunks : List (List Char)) :
    List (Option Eye) :=
  claimedLanesGo startEye [] (chunkSentenceIds chunks)

/-- The playback controller state: current chunk index, playing flag, and
whether a tick timer is pending (`state.timer`). -/
structure PlayerState where
  rsvpIndex : Nat
  playing : Bool
  timerPending : Bool
deriving DecidableEq, Repr

/-- `scheduleNextTick()`: returns without scheduling when not playing;
otherwise replaces any pending timer with a new one (at most one pending). -/
def scheduleNextTick (s : PlayerState) : PlayerState :=
  if s.playing then { s with timerPending := true } else s

/-- `setPlaying(on)`: set the playing flag; when turning on, schedule the
next tick; when turning off, cancel the pending timer. -/
def setPlaying (turnOn : Bool) (s : PlayerState) : PlayerState :=
  let s1 := { s with playing := turnOn }
  if turnOn then scheduleNextTick s1 else { s1 with timerPending := false }

/-- The tick callback of `scheduleNextTick` firing, for a chunk count `n`:
the one-shot timer is consumed; a stale tick against a paused state does
nothing; below the last index the controller advances and reschedules; at the
last index playback stops without advancing and without rescheduling. -/
def tickFire (n : Nat) (s : PlayerState) : PlayerState :=
  if ¬s.timerPending then s
  else
    let s0 := { s with timerPending := false }
    if ¬s0.playing then s0
    else if s0.rsvpIndex < n - 1 then
      scheduleNextTick { s0 with rsvpIndex := s0.rsvpIndex + 1 }
    else { s0 with playing := false }

/-- Modelled from the claim (C7): the early-flush predicate as the claim
states it — the token ends with one of `, ; : . ! ? …`, optionally followed
by a closing quote or bracket. -/
def claimEndsClauseB (t : List Char) : Bool :=
  match t.reverse.dropWhile sentCloserB with
  | c :: _ => c = ',' || c = ';' || c = ':' || c = '.' || c = '!' || c = '?' || c = '…'
  | [] => false

/-- Phrase grouping written from the spec's words, §4.2: accumulate tokens
into a chunk, flush early when the token just appended satisfies the flush
predicate, otherwise flush at `maxTokens`; paragraph markers flush and emit
their own chunk. -/
def phraseGroupingGo (flushP : List Char → Bool) (maxTokens : Nat)
    (cur : List (List Char)) : List (List Char) → List (List Char)
  | [] => if cur = [] then [] else [joinSp cur]
  | t :: ts =>
    if t = paraTok then
      if cur = [] then paraTok :: phraseGroupingGo flushP maxTokens [] ts
      else joinSp cur :: paraTok :: phraseGroupingGo flushP maxTokens [] ts
    else
      if flushP t ∨ cur.length + 1 ≥ maxTokens then
        joinSp (cur ++ [t]) :: phraseGroupingGo flushP maxTokens [] ts
      else phraseGroupingGo flushP maxTokens (cur ++ [t]) ts

/-- A well-formed token: non-empty and containing no whitespace character.
Every token `tokenize_for_rsvp` emits satisfies this. -/
def wfTok (t : List Char) : Prop :=
  t ≠ [] ∧ t.all (fun c => !isSpaceB c) = true

/-- Keep the chunks/tokens that are not the paragraph marker. -/
def notParaB (t : List Char) : Bool := !decide (t = paraTok)

/-- Example text `"www.."` (tokenizes to the single URL-like token
`"www.."`, which the tokenizer builds by attaching the two trailing dots to
the word `www`). -/
def exWwwDots : List Char := ['w', 'w', 'w', '.', '.']

def exWordA : List Char := ['a']

def exWordApple : List Char := ['a', 'p', 'p', 'l', 'e']

def exWordElephant : List Char := ['e', 'l', 'e', 'p', 'h', 'a', 'n', 't']

def exWordInformation : List Char :=
  ['i', 'n', 'f', 'o', 'r', 'm', 'a', 't', 'i', 'o', 'n']

def exWordIntz : List Char :=
  ['i', 'n', 't', 'e', 'r', 'n', 'a', 't', 'i', 'o', 'n', 'a', 'l', 'i',
   'z', 'a', 't', 'i', 'o', 'n']

def exAbBangs : List Char := ['a', 'b', '!', '!', '!', '!']

def exHello : List Char := ['h', 'e', 'l', 'l', 'o']

def exHelloDot : List Char := ['h', 'e', 'l', 'l', 'o', '.']

def exHelloCap : List Char := ['H', 'e', 'l', 'l', 'o']

def exWorldDot : List Char := ['w', 'o', 'r', 'l', 'd', '.']

def exChunkAB : List Char := ['a', ' ', 'b']

def exChunkCD : List Char := ['c', ' ', 'd']

def exChunkWXYZ : List Char := ['w', ' ', 'x', ' ', 'y', ' ', 'z']

def exADot : List Char := ['A', '.']

def exBDot : List Char := ['B', '.']

def exCDot : List Char := ['C', '.']

def exHiComma : List Char := ['H', 'i', ',']

def exThere : List Char := ['t', 'h', 'e', 'r', 'e']

/-! ## Lemmas and claim theorems -/

/-- C2: the ORP index computation returns 0 for "a", 1 for "apple", 2 for
"elephant", 3 for "information" and 4 for "internationalization" (no leading
punctuation), and the Python (`compute_orp_index`) and client-side
(`computeOrpIndex`) implementations agree on these values. -/
theorem C2_orp_values :
    compute_orp_index exWordA = 0 ∧ compute_orp_index exWordApple = 1 ∧
    compute_orp_index exWordElephant = 2 ∧
    compute_orp_index exWordInformation = 3 ∧
    compute_orp_index exWordIntz = 4 ∧
    computeOrpIndex exWordA = compute_orp_index exWordA ∧
    computeOrpIndex exWordApple = compute_orp_index exWordApple ∧
    computeOrpIndex exWordElephant = compute_orp_index exWordElephant ∧
    computeOrpIndex exWordInformation = compute_orp_index exWordInformation ∧
    computeOrpIndex exWordIntz = compute_orp_index exWordIntz := by
  decide

/-- C10: for every chunk string and all multiplier arguments (including
values below 1 or negative), `estimate_pause_multiplier` returns a value
greater than or equal to 1, so the pause classification can never shorten a
chunk's display duration below its base duration. -/
theorem C10_pause_multiplier_ge_one (chunk : List Char) (c s p : ℚ) :
    1 ≤ estimate_pause_multiplier chunk c s p := by
  unfold estimate_pause_multiplier
  dsimp only
  split_ifs <;> simp [le_max_iff]

/-- C8 counterexample: for the word "ab!!!!" the source computes pivot index
1 (its `coreLen` strips non-word characters from BOTH ends, giving core "ab",
bucket 1), while the claim's formula (`coreLen` = length after stripping only
LEADING non-word characters, here 6, bucket 2) demands 2. -/
theorem C8_counterexample :
    compute_orp_index exAbBangs = 1 ∧ orpIndexClaimC8 exAbBangs = 2 ∧
    compute_orp_index exAbBangs ≠ orpIndexClaimC8 exAbBangs := by
  decide

/-- C8 amended: the pivot index equals the bucket of `coreLen`
(`≤1→0, ≤5→1, ≤9→2, ≤13→3, else 4`) where `coreLen` is the word's length
after stripping non-word characters from BOTH ends (the whole word's length
when that strip empties it), plus the count of LEADING non-alphanumeric
characters, clamped to `[0, len(word)-1]`; both implementations compute
exactly this. -/
theorem C8_amended (w : List Char) :
    compute_orp_index w = orpIndexAmendedSpec w ∧
    computeOrpIndex w = orpIndexAmendedSpec w :=
  ⟨rfl, rfl⟩

/-- C9 counterexample: with per-eye mode active, WPM 400, inter-lane delay
35 ms and a one-word chunk, the scheduled delay computed by `currentDelayMs`
is 150 ms, not the 185 ms the claim requires (base duration plus inter-lane
delay): the source never adds the inter-lane delay to the tick duration. -/
theorem C9_counterexample :
    currentDelayMs ⟨400, 8 / 5, 11 / 5, 3, true, 35, false⟩ exHello = 150 ∧
    claimedDelayMsC9 ⟨400, 8 / 5, 11 / 5, 3, true, 35, false⟩ exHello = 185 ∧
    currentDelayMs ⟨400, 8 / 5, 11 / 5, 3, true, 35, false⟩ exHello ≠
      claimedDelayMsC9 ⟨400, 8 / 5, 11 / 5, 3, true, 35, false⟩ exHello := by
  have h1 : countWordRuns exHello = 1 := by decide
  have h2 : exHello ≠ paraTok := by decide
  have h3 : endsSentencePunctB exHello = false := by decide
  have h4 : endsCommaPunctB exHello = false := by decide
  have h5 : hasEllipsisB exHello = false := by decide
  have e1 : currentDelayMs ⟨400, 8 / 5, 11 / 5, 3, true, 35, false⟩ exHello = 150 := by
    simp only [currentDelayMs, estimatePauseMultiplier, clampI, clampQ, h1, h2, h3, h4, h5,
      if_neg h2, Bool.false_eq_true, Nat.cast_one]
    norm_num
  have e2 : claimedDelayMsC9 ⟨400, 8 / 5, 11 / 5, 3, true, 35, false⟩ exHello = 185 := by
    simp only [claimedDelayMsC9, estimatePauseMultiplier, clampI, clampQ, h1, h2, h3, h4, h5,
      if_neg h2, Bool.false_eq_true, Nat.cast_one, if_true]
    norm_num
  refine ⟨e1, e2, ?_⟩
  rw [e1, e2]
  decide

/-- C9 amended: the inter-lane delay is never added to the chunk's display
duration — the tick delay is independent of the per-eye flag and the
configured inter-lane delay (the delay only staggers the second lane's
reveal inside the chunk's window) — and the computed duration is always
floored at the 20 ms minimum. -/
theorem C9_amended (w : Int) (c s p : ℚ) (chunk : List Char)
    (pe pe' : Bool) (lr lr' : Int) (sr sr' : Bool) :
    currentDelayMs ⟨w, c, s, p, pe, lr, sr⟩ chunk =
      currentDelayMs ⟨w, c, s, p, pe', lr', sr'⟩ chunk ∧
    20 ≤ currentDelayMs ⟨w, c, s, p, pe, lr, sr⟩ chunk := by
  constructor
  · rfl
  · unfold currentDelayMs
    exact le_max_left _ _

/-- C3: at WPM 400 a single-word chunk with no trailing punctuation is
displayed for exactly 150 ms; the same chunk ending in a period with
sentence multiplier 2.2 for exactly 330 ms; for the paragraph chunk the
paragraph multiplier is applied regardless of the other trailing-punctuation
multipliers, and with paragraph multiplier 3.0 the delay is
`(60000/WPM) × 3.0` (rounded down to the whole millisecond the source
returns) for every in-range WPM. -/
theorem C3_timing :
    currentDelayMs ⟨400, 8 / 5, 11 / 5, 3, false, 35, false⟩ exHello = 150 ∧
    currentDelayMs ⟨400, 8 / 5, 11 / 5, 3, false, 35, false⟩ exHelloDot = 330 ∧
    (∀ c s p : ℚ, estimate_pause_multiplier paraTok c s p = max 1 p ∧
      estimatePauseMultiplier paraTok c s p = max 1 p) ∧
    (∀ (w : Int) (c s : ℚ) (pe : Bool) (lr : Int) (sr : Bool),
      50 ≤ w → w ≤ 3000 →
      currentDelayMs ⟨w, c, s, 3, pe, lr, sr⟩ paraTok = ⌊(60000 / (w : ℚ)) * 3⌋) := by
  refine ⟨?_, ?_, ?_, ?_⟩
  · have h1 : countWordRuns exHello = 1 := by decide
    have h2 : exHello ≠ paraTok := by decide
    have h3 : endsSentencePunctB exHello = false := by decide
    have h4 : endsCommaPunctB exHello = false := by decide
    have h5 : hasEllipsisB exHello = false := by decide
    simp only [currentDelayMs, estimatePauseMultiplier, clampI, clampQ, h1, h2, h3, h4, h5,
      if_neg h2, Bool.false_eq_true, Nat.cast_one]
    norm_num
  · have h1 : countWordRuns exHelloDot = 1 := by decide
    have h2 : exHelloDot ≠ paraTok := by decide
    have h3 : endsSentencePunctB exHelloDot = true := by decide
    have h5 : hasEllipsisB exHelloDot = false := by decide
    simp only [currentDelayMs, estimatePauseMultiplier, clampI, clampQ, h1, h2, h3, h5,
      if_neg h2, Bool.false_eq_true, Nat.cast_one, if_true]
    norm_num
  · intro c s p
    constructor
    · simp [estimate_pause_multiplier]
    · simp [estimatePauseMultiplier]
  · intro w c s pe lr sr hw1 hw2
    have h1 : countWordRuns paraTok = 1 := by decide
    have hcl : clampI w 50 3000 = w := by
      unfold clampI
      rw [min_eq_right hw2, max_eq_right hw1]
    have hest : ∀ cq sq : ℚ,
        estimatePauseMultiplier paraTok cq sq (clampQ 3 1 20) = 3 := by
      intro cq sq
      have hp : clampQ 3 1 20 = 3 := by unfold clampQ; norm_num
      simp only [estimatePauseMultiplier, if_pos rfl, hp]
      norm_num
    simp only [currentDelayMs, h1, hcl, hest, Nat.cast_one, max_self, mul_one]
    have hw0 : (0 : ℚ) < (w : ℚ) := by
      have : (0 : Int) < w := by omega
      exact_mod_cast this
    have hb : (20 : ℚ) ≤ 60000 / (w : ℚ) * 3 := by
      rw [div_mul_eq_mul_div, le_div_iff₀ hw0]
      have hw2q : (w : ℚ) ≤ 3000 := by exact_mod_cast hw2
      linarith
    have hfl : (20 : Int) ≤ ⌊60000 / (w : ℚ) * 3⌋ := by
      rw [Int.le_floor]
      exact_mod_cast hb
    exact max_eq_right hfl

/-- C3 witness: instantiating the paragraph part of `C3_timing` at WPM 400
gives the concrete 450 ms = 150 ms × 3.0 paragraph delay. -/
theorem C3_timing_witness :
    (50 : Int) ≤ 400 ∧ (400 : Int) ≤ 3000 ∧
    currentDelayMs ⟨400, 8 / 5, 11 / 5, 3, true, 35, false⟩ paraTok = 450 := by
  have h := C3_timing.2.2.2 400 (8 / 5) (11 / 5) true 35 false
    (by norm_num) (by norm_num)
  refine ⟨by norm_num, by norm_num, ?_⟩
  rw [h]
  norm_num

/-- Helper: the branch test of `rrGo` agrees with `wordLaneAt` of the first
eye. -/
theorem laneIf_eq (ftl : Bool) (k : Nat) :
    (if (ftl ∧ k % 2 = 0) ∨ (¬ftl ∧ k % 2 = 1) then Eye.left else Eye.right) =
    wordLaneAt (if ftl then Eye.left else Eye.right) k := by
  rcases Nat.mod_two_eq_zero_or_one k with h | h <;>
    cases ftl <;> simp [wordLaneAt, otherEye, h]

/-- Helper: `rrGo` assigns to the wordish parts exactly the lanes
`wordLaneAt firstEye (wc + j)` in order. -/
theorem rrGo_formula (ftl : Bool) (parts : List (List Char)) : ∀ (wc : Nat),
    rrGo ftl wc parts =
      (List.range ((parts.filter (fun p => p.any isWordCharB)).length)).map
        (fun j => wordLaneAt (if ftl then Eye.left else Eye.right) (wc + j)) := by
  induction parts with
  | nil => intro wc; simp [rrGo]
  | cons p ps ih =>
    intro wc
    by_cases hp : p.any isWordCharB = true
    · simp only [rrGo, hp, if_true, List.filter_cons, List.length_cons,
        List.range_succ_eq_map, List.map_cons, List.map_map, List.cons.injEq]
      constructor
      · rw [laneIf_eq]
        simp
      · rw [ih (wc + 1)]
        apply List.map_congr_left
        intro j _
        simp only [Function.comp]
        congr 1
        omega
    · have hp' : p.any isWordCharB = false := by simpa using hp
      simp only [rrGo, hp', Bool.false_eq_true, if_false, List.filter_cons]
      exact ih wc

/-- C4 counterexample: with start-eye Left and the two two-word chunks
"a b" and "c d", the code assigns lanes `[L, R, R, L]` — the word counter
resets at the chunk boundary and chunk 1 starts from the chunk-parity eye
(Right), so the global sequence does NOT strictly alternate and differs from
the `[L, R, L, R]` the claim's globally-maintained counter requires. -/
theorem C4_counterexample :
    roundRobinAllLanes false [exChunkAB, exChunkCD] =
      [Eye.left, Eye.right, Eye.right, Eye.left] ∧
    strictAltB (roundRobinAllLanes false [exChunkAB, exChunkCD]) = false ∧
    altLanes Eye.left 4 = [Eye.left, Eye.right, Eye.left, Eye.right] ∧
    roundRobinAllLanes false [exChunkAB, exChunkCD] ≠ altLanes Eye.left 4 := by
  decide

/-- C4 amended: in word-round-robin mode the lanes alternate strictly WITHIN
each chunk, with the word counter reset at every chunk: chunk `i`'s words
get lanes `wordLaneAt (stereoChunkEye startRight i) j`, the first chunk's
starting lane is the configured start eye, and a single chunk's words
`[0,1,2,3]` with start-eye Left get `[Left, Right, Left, Right]`.  The
alternation does not continue across a chunk boundary when a chunk has an
even word count. -/
theorem C4_roundrobin_amended :
    (∀ (sr : Bool) (i : Nat) (chunk : List Char), chunk ≠ paraTok →
      buildStereoRoundRobinWordLanes sr i chunk =
        altLanes (stereoChunkEye sr i) (wordishCount chunk)) ∧
    (∀ sr : Bool, stereoChunkEye sr 0 = (if sr then Eye.right else Eye.left)) ∧
    buildStereoRoundRobinWordLanes false 0 exChunkWXYZ =
      [Eye.left, Eye.right, Eye.left, Eye.right] := by
  refine ⟨?_, ?_, by decide⟩
  · intro sr i chunk h
    unfold buildStereoRoundRobinWordLanes
    rw [if_neg h, rrGo_formula]
    unfold altLanes wordishCount
    apply List.map_congr_left
    intro j _
    cases h2 : stereoChunkEye sr i <;> simp [h2]
  · intro sr
    cases sr <;> rfl

/-- C4 witness: instantiating the amended per-chunk formula on the concrete
chunk "a b" at chunk index 1. -/
theorem C4_roundrobin_amended_witness :
    buildStereoRoundRobinWordLanes false 1 exChunkAB =
      altLanes (stereoChunkEye false 1) (wordishCount exChunkAB) :=
  C4_roundrobin_amended.1 false 1 exChunkAB (by decide)

/-- C5 counterexample: the chunks "Hello" and "world." belong to one
sentence (spec-modelled sentence ids `[0, 0]`), so the claim demands both get
the first-seen sentence lane (with start-eye Left: `[Left, Left]`), but the
code assigns the first-reveal eye purely by chunk-index parity: chunk 0 gets
Left and chunk 1 gets Right. -/
theorem C5_counterexample :
    chunkSentenceIds [exHelloCap, exWorldDot] = [some 0, some 0] ∧
    claimedSentenceLanes Eye.left [exHelloCap, exWorldDot] =
      [some Eye.left, some Eye.left] ∧
    sentenceModeFirstEye false 0 exHelloCap = Eye.left ∧
    sentenceModeFirstEye false 1 exWorldDot = Eye.right ∧
    sentenceModeFirstEye false 0 exHelloCap ≠
      sentenceModeFirstEye false 1 exWorldDot := by
  decide

/-- C5 amended: in sentence per-eye mode both lanes always receive the same
content, the first-revealed eye of a non-paragraph chunk is determined by
chunk-index parity from the configured start eye (`stereoChunkEye`) — not by
sentence id, which the source never computes — and with three single-chunk
sentences and start-eye Right the first-reveal eyes are
`[Right, Left, Right]`. -/
theorem C5_sentence_amended :
    (∀ (sr : Bool) (i : Nat) (chunk : List Char),
      (buildStereoSentenceHtml sr i chunk).sameContentBothLanes = true) ∧
    (∀ (sr : Bool) (i : Nat) (chunk : List Char), chunk ≠ paraTok →
      sentenceModeFirstEye sr i chunk = stereoChunkEye sr i) ∧
    [sentenceModeFirstEye true 0 exADot, sentenceModeFirstEye true 1 exBDot,
      sentenceModeFirstEye true 2 exCDot] = [Eye.right, Eye.left, Eye.right] := by
  refine ⟨?_, ?_, by decide⟩
  · intro sr i chunk
    unfold buildStereoSentenceHtml
    split_ifs <;> rfl
  · intro sr i chunk h
    unfold sentenceModeFirstEye buildStereoSentenceHtml
    rw [if_neg h]
    cases h2 : stereoChunkEye sr i <;> simp [h2, revealFirstEye]

/-- C5 witness: instantiating the amended parity rule on the concrete chunk
"A." at chunk index 5 with start-eye Right. -/
theorem C5_sentence_amended_witness :
    sentenceModeFirstEye true 5 exADot = stereoChunkEye true 5 :=
  C5_sentence_amended.2.1 true 5 exADot (by decide)

/-- C6 counterexample: from Paused at the last index (single chunk, index
0), `setPlaying true` leaves the controller PLAYING with a tick scheduled —
it does not transition back to Paused immediately and it does schedule a
tick, contrary to the claim. -/
theorem C6_counterexample :
    (setPlaying true ⟨0, false, false⟩).playing = true ∧
    (setPlaying true ⟨0, false, false⟩).timerPending = true := by
  decide

/-- C6 amended: from Paused at (or beyond) the last index, `play()` enters
Playing and schedules one tick; when that tick fires the controller
transitions to Paused without advancing the index and without scheduling a
further tick. -/
theorem C6_play_at_end_amended (n : Nat) (s : PlayerState)
    (_hp : s.playing = false) (hi : n - 1 ≤ s.rsvpIndex) :
    (setPlaying true s).playing = true ∧
    (setPlaying true s).timerPending = true ∧
    (tickFire n (setPlaying true s)).playing = false ∧
    (tickFire n (setPlaying true s)).rsvpIndex = s.rsvpIndex ∧
    (tickFire n (setPlaying true s)).timerPending = false := by
  have hs : setPlaying true s = ⟨s.rsvpIndex, true, true⟩ := by
    simp [setPlaying, scheduleNextTick]
  have hnl : ¬ s.rsvpIndex < n - 1 := by omega
  rw [hs]
  simp [tickFire, hnl]

/-- C6 witness: the amended behaviour at the concrete single-chunk state. -/
theorem C6_play_at_end_amended_witness :
    (setPlaying true ⟨0, false, false⟩).playing = true ∧
    (tickFire 1 (setPlaying true ⟨0, false, false⟩)).playing = false ∧
    (tickFire 1 (setPlaying true ⟨0, false, false⟩)).rsvpIndex = 0 ∧
    (tickFire 1 (setPlaying true ⟨0, false, false⟩)).timerPending = false := by
  have h := C6_play_at_end_amended 1 ⟨0, false, false⟩ rfl (by decide)
  exact ⟨h.1, h.2.2.1, h.2.2.2.1, h.2.2.2.2⟩

/-- C7 counterexample: the token "Hi," ends with a comma, which the claim
says flushes the phrase chunk early, but the source's flush test `[.!?;:]$`
does not include the comma: with chunk size 3 the code produces the single
chunk "Hi, there" where the claim's grouping produces `["Hi,", "there"]`. -/
theorem C7_counterexample :
    build_chunks [exHiComma, exThere] 3 true false =
      [['H', 'i', ',', ' ', 't', 'h', 'e', 'r', 'e']] ∧
    claimEndsClauseB exHiComma = true ∧
    phraseGroupingGo claimEndsClauseB (max 3 3) [] [exHiComma, exThere] =
      [exHiComma, exThere] ∧
    build_chunks [exHiComma, exThere] 3 true false ≠
      phraseGroupingGo claimEndsClauseB (max 3 3) [] [exHiComma, exThere] := by
  decide

/-- Helper: the phrase-mode loop of `build_chunks` is exactly the spec-style
greedy grouping with the source's flush predicate `[.!?;:]$`. -/
theorem phraseGo_eq_grouping (n : Nat) (ts : List (List Char)) :
    ∀ cur : List (List Char),
      phraseGo n cur ts = phraseGroupingGo endsPhraseB (max 3 n) cur ts := by
  induction ts with
  | nil => intro cur; rfl
  | cons t ts ih =>
    intro cur
    by_cases h1 : t = paraTok
    · by_cases h2 : cur = [] <;>
        simp [phraseGo, phraseGroupingGo, h1, h2, ih]
    · by_cases h3 : endsPhraseB t = true ∨ cur.length + 1 ≥ max 3 n <;>
        simp [phraseGo, phraseGroupingGo, h1, h3, ih]

/-- C7 amended: in phrase mode a chunk is flushed early exactly when the
token just appended ends in one of `. ! ? ; :` as its final character (a
comma or ellipsis does not flush, and a trailing closing quote/bracket
suppresses the flush); otherwise the chunk is flushed when it reaches
`max(3, chunk size)` tokens — i.e. `build_chunks` in phrase mode equals the
greedy grouping with the `[.!?;:]$` flush predicate. -/
theorem C7_phrase_flush_amended (ts : List (List Char)) (n : Nat) (su : Bool) :
    build_chunks ts n true su =
      phraseGroupingGo endsPhraseB (max 3 n) []
        (if su then ts.filter urlKeepB else ts) := by
  unfold build_chunks
  by_cases h : (if su then ts.filter urlKeepB else ts) = []
  · rw [h]
    simp [phraseGroupingGo]
  · simp only [h, if_neg h, if_true]
    exact phraseGo_eq_grouping n _ []

theorem splitWsAux_append_space (b : List Char) : ∀ (a cur : List Char),
    splitWsAux cur (a ++ ' ' :: b) = splitWsAux cur a ++ splitWs b := by
  intro a
  induction a with
  | nil =>
    intro cur
    by_cases h : cur = [] <;> simp [splitWsAux, splitWs, h, isSpaceB]
  | cons c a ih =>
    intro cur
    by_cases hc : isSpaceB c = true
    · by_cases h : cur = [] <;> simp [splitWsAux, hc, h, ih]
    · simp [splitWsAux, hc, ih (c :: cur)]

theorem splitWsAux_all_nonspace : ∀ (t cur : List Char),
    t.all (fun c => !isSpaceB c) = true → (cur ≠ [] ∨ t ≠ []) →
    splitWsAux cur t = [cur.reverse ++ t] := by
  intro t
  induction t with
  | nil =>
    intro cur _ h
    have hcur : cur ≠ [] := h.resolve_right (by simp)
    simp [splitWsAux, hcur]
  | cons c t ih =>
    intro cur hall h
    simp only [List.all_cons, Bool.and_eq_true, Bool.not_eq_true'] at hall
    simp only [splitWsAux, hall.1, Bool.false_eq_true, if_false]
    rw [ih (c :: cur) (by simpa using hall.2) (Or.inl (by simp))]
    simp

theorem splitWs_wf_single (t : List Char) (h : wfTok t) : splitWs t = [t] := by
  unfold splitWs
  rw [splitWsAux_all_nonspace t [] h.2 (Or.inr h.1)]
  simp

theorem joinSp_cons (a : List Char) (l : List (List Char)) (h : l ≠ []) :
    joinSp (a :: l) = a ++ ' ' :: joinSp l := by
  cases l with
  | nil => exact absurd rfl h
  | cons b m => rfl

theorem splitWs_joinSp_flat : ∀ cs : List (List Char),
    splitWs (joinSp cs) = cs.flatMap splitWs := by
  intro cs
  induction cs with
  | nil => rfl
  | cons a l ih =>
    cases l with
    | nil => simp [joinSp]
    | cons b m =>
      rw [joinSp_cons a (b :: m) (by simp)]
      show splitWsAux [] (a ++ ' ' :: joinSp (b :: m)) = _
      rw [splitWsAux_append_space]
      rw [show splitWsAux [] a = splitWs a from rfl, ih]
      simp

theorem splitWs_joinSp_group (group : List (List Char))
    (h : ∀ t ∈ group, wfTok t) : splitWs (joinSp group) = group := by
  rw [splitWs_joinSp_flat]
  induction group with
  | nil => rfl
  | cons a l ih =>
    simp only [List.flatMap_cons]
    rw [splitWs_wf_single a (h a (by simp)), ih (fun t ht => h t (by simp [ht]))]
    rfl

theorem joinSp_ne_para (group : List (List Char)) (hne : group ≠ [])
    (h : ∀ t ∈ group, wfTok t ∧ t ≠ paraTok) : joinSp group ≠ paraTok := by
  cases group with
  | nil => exact absurd rfl hne
  | cons a l =>
    cases l with
    | nil => exact (h a (by simp)).2
    | cons b m =>
      intro hEq
      have hsp : ' ' ∈ paraTok := by
        rw [← hEq, joinSp_cons a (b :: m) (by simp)]
        exact List.mem_append_right _ (List.mem_cons_self _ _)
      exact absurd hsp (by decide)

theorem notParaB_para : notParaB paraTok = false := by decide

theorem notParaB_of_ne {t : List Char} (h : t ≠ paraTok) : notParaB t = true := by
  simp [notParaB, h]

theorem fixedGo_nil (n : Nat) (cur : List (List Char)) :
    fixedGo n cur [] = if cur = [] then [] else [joinSp cur] := rfl

theorem fixedGo_cons (n : Nat) (cur : List (List Char)) (t : List Char)
    (ts : List (List Char)) :
    fixedGo n cur (t :: ts) =
      if t = paraTok then
        if cur = [] then paraTok :: fixedGo n [] ts
        else joinSp cur :: paraTok :: fixedGo n [] ts
      else
        if cur.length + 1 ≥ max 1 n then joinSp (cur ++ [t]) :: fixedGo n [] ts
        else fixedGo n (cur ++ [t]) ts := rfl

theorem phraseGo_nil (n : Nat) (cur : List (List Char)) :
    phraseGo n cur [] = if cur = [] then [] else [joinSp cur] := rfl

theorem phraseGo_cons (n : Nat) (cur : List (List Char)) (t : List Char)
    (ts : List (List Char)) :
    phraseGo n cur (t :: ts) =
      if t = paraTok then
        if cur = [] then paraTok :: phraseGo n [] ts
        else joinSp cur :: paraTok :: phraseGo n [] ts
      else
        if endsPhraseB t ∨ cur.length + 1 ≥ max 3 n then
          joinSp (cur ++ [t]) :: phraseGo n [] ts
        else phraseGo n (cur ++ [t]) ts := rfl

theorem fixedGo_roundtrip (n : Nat) : ∀ (ts cur : List (List Char)),
    (∀ t ∈ ts, wfTok t) → (∀ t ∈ cur, wfTok t ∧ t ≠ paraTok) →
    ((fixedGo n cur ts).filter notParaB).flatMap splitWs = cur ++ ts.filter notParaB := by
  intro ts
  induction ts with
  | nil =>
    intro cur _ hcur
    by_cases h : cur = []
    · subst h; simp [fixedGo_nil]
    · rw [fixedGo_nil, if_neg h,
        List.filter_cons_of_pos (notParaB_of_ne (joinSp_ne_para cur h hcur))]
      simp [splitWs_joinSp_group cur (fun t ht => (hcur t ht).1)]
  | cons t ts ih =>
    intro cur hts hcur
    have hwt : wfTok t := hts t (by simp)
    have hts' : ∀ x ∈ ts, wfTok x := fun x hx => hts x (by simp [hx])
    by_cases hpara : t = paraTok
    · subst hpara
      by_cases h : cur = []
      · subst h
        rw [fixedGo_cons, if_pos rfl, if_pos rfl,
          List.filter_cons_of_neg (by simp [notParaB_para])]
        simpa using ih [] hts' (by simp)
      · rw [fixedGo_cons, if_pos rfl, if_neg h,
          List.filter_cons_of_pos (notParaB_of_ne (joinSp_ne_para cur h hcur)),
          List.filter_cons_of_neg (by simp [notParaB_para])]
        simp only [List.flatMap_cons]
        rw [splitWs_joinSp_group cur (fun x hx => (hcur x hx).1), ih [] hts' (by simp),
          List.filter_cons_of_neg (by simp [notParaB_para])]
        simp
    · have hkeep : notParaB t = true := notParaB_of_ne hpara
      have hmem : ∀ x ∈ cur ++ [t], wfTok x ∧ x ≠ paraTok := by
        intro x hx
        rcases List.mem_append.mp hx with hx1 | hx1
        · exact hcur x hx1
        · rcases List.mem_singleton.mp hx1 with rfl
          exact ⟨hwt, hpara⟩
      by_cases hflush : cur.length + 1 ≥ max 1 n
      · rw [fixedGo_cons, if_neg hpara, if_pos hflush,
          List.filter_cons_of_pos
            (notParaB_of_ne (joinSp_ne_para (cur ++ [t]) (by simp) hmem))]
        simp only [List.flatMap_cons]
        rw [splitWs_joinSp_group (cur ++ [t]) (fun x hx => (hmem x hx).1),
          ih [] hts' (by simp), List.filter_cons_of_pos hkeep]
        simp
      · rw [fixedGo_cons, if_neg hpara, if_neg hflush,
          ih (cur ++ [t]) hts' hmem, List.filter_cons_of_pos hkeep]
        simp

theorem phraseGo_roundtrip (n : Nat) : ∀ (ts cur : List (List Char)),
    (∀ t ∈ ts, wfTok t) → (∀ t ∈ cur, wfTok t ∧ t ≠ paraTok) →
    ((phraseGo n cur ts).filter notParaB).flatMap splitWs = cur ++ ts.filter notParaB := by
  intro ts
  induction ts with
  | nil =>
    intro cur _ hcur
    by_cases h : cur = []
    · subst h; simp [phraseGo_nil]
    · rw [phraseGo_nil, if_neg h,
        List.filter_cons_of_pos (notParaB_of_ne (joinSp_ne_para cur h hcur))]
      simp [splitWs_joinSp_group cur (fun t ht => (hcur t ht).1)]
  | cons t ts ih =>
    intro cur hts hcur
    have hwt : wfTok t := hts t (by simp)
    have hts' : ∀ x ∈ ts, wfTok x := fun x hx => hts x (by simp [hx])
    by_cases hpara : t = paraTok
    · subst hpara
      by_cases h : cur = []
      · subst h
        rw [phraseGo_cons, if_pos rfl, if_pos rfl,
          List.filter_cons_of_neg (by simp [notParaB_para])]
        simpa using ih [] hts' (by simp)
      · rw [phraseGo_cons, if_pos rfl, if_neg h,
          List.filter_cons_of_pos (notParaB_of_ne (joinSp_ne_para cur h hcur)),
          List.filter_cons_of_neg (by simp [notParaB_para])]
        simp only [List.flatMap_cons]
        rw [splitWs_joinSp_group cur (fun x hx => (hcur x hx).1), ih [] hts' (by simp),
          List.filter_cons_of_neg (by simp [notParaB_para])]
        simp
    · have hkeep : notParaB t = true := notParaB_of_ne hpara
      have hmem : ∀ x ∈ cur ++ [t], wfTok x ∧ x ≠ paraTok := by
        intro x hx
        rcases List.mem_append.mp hx with hx1 | hx1
        · exact hcur x hx1
        · rcases List.mem_singleton.mp hx1 with rfl
          exact ⟨hwt, hpara⟩
      by_cases hflush : endsPhraseB t = true ∨ cur.length + 1 ≥ max 3 n
      · rw [phraseGo_cons, if_neg hpara, if_pos (by simpa using hflush),
          List.filter_cons_of_pos
            (notParaB_of_ne (joinSp_ne_para (cur ++ [t]) (by simp) hmem))]
        simp only [List.flatMap_cons]
        rw [splitWs_joinSp_group (cur ++ [t]) (fun x hx => (hmem x hx).1),
          ih [] hts' (by simp), List.filter_cons_of_pos hkeep]
        simp
      · rw [phraseGo_cons, if_neg hpara, if_neg (by simpa using hflush),
          ih (cur ++ [t]) hts' hmem, List.filter_cons_of_pos hkeep]
        simp

theorem space_cases (c : Char) (h : isSpaceB c = true) :
    c = ' ' ∨ c = '\t' ∨ c = '\n' ∨ c = '\r' ∨ c = '\x0b' ∨ c = '\x0c' := by
  have h2 := h
  simp only [isSpaceB, Bool.or_eq_true, decide_eq_true_eq] at h2
  tauto

theorem alnum_nonspace (c : Char) (h : c.isAlphanum = true) : isSpaceB c = false := by
  cases hs : isSpaceB c
  · rfl
  · rcases space_cases c hs with h1 | h1 | h1 | h1 | h1 | h1 <;> subst h1 <;>
      exact absurd h (by decide)

theorem punct_nonspace (c : Char) (h : punctClassB c = true) : isSpaceB c = false := by
  cases hs : isSpaceB c
  · rfl
  · rcases space_cases c hs with h1 | h1 | h1 | h1 | h1 | h1 <;> subst h1 <;>
      exact absurd h (by decide)

theorem apRunF_nonspace : ∀ (fuel : Nat) (s : List Char),
    (apRunF fuel s).1.all (fun c => !isSpaceB c) = true := by
  intro fuel
  induction fuel with
  | zero => intro s; rfl
  | succ fuel ih =>
    intro s
    match s with
    | [] => rfl
    | [c] => rfl
    | c :: d :: rest =>
      by_cases h : (c = aposChar ∨ c = '’') ∧ d.isAlphanum = true
      · simp only [apRunF, if_pos h]
        simp only [List.all_cons, List.all_append, Bool.and_eq_true]
        refine ⟨?_, ?_, ?_⟩
        · rcases h.1 with h1 | h1 <;> subst h1 <;> decide
        · simp only [List.all_eq_true]
          intro x hx
          have := List.mem_takeWhile_imp hx
          simp [alnum_nonspace x this]
        · exact ih _
      · simp only [apRunF, if_neg h]
        rfl

theorem hyRunF_nonspace : ∀ (fuel : Nat) (s : List Char),
    (hyRunF fuel s).1.all (fun c => !isSpaceB c) = true := by
  intro fuel
  induction fuel with
  | zero => intro s; rfl
  | succ fuel ih =>
    intro s
    match s with
    | [] => rfl
    | [c] => rfl
    | c :: d :: rest =>
      by_cases h : c = '-' ∧ d.isAlphanum = true
      · simp only [hyRunF, if_pos h]
        simp only [List.all_cons, List.all_append, Bool.and_eq_true]
        refine ⟨?_, ?_, ?_⟩
        · rcases h with ⟨h1, _⟩; subst h1; decide
        · simp only [List.all_eq_true]
          intro x hx
          have := List.mem_takeWhile_imp hx
          simp [alnum_nonspace x this]
        · exact ih _
      · simp only [hyRunF, if_neg h]
        rfl

theorem rawTokensF_homog : ∀ (fuel : Nat) (cs t : List Char),
    t ∈ rawTokensF fuel cs →
    t ≠ [] ∧ (t.all isSpaceB = true ∨ t.all (fun c => !isSpaceB c) = true) := by
  intro fuel
  induction fuel with
  | zero => intro cs t ht; simp [rawTokensF] at ht
  | succ fuel ih =>
    intro cs t ht
    cases cs with
    | nil => simp [rawTokensF] at ht
    | cons c rest =>
      simp only [rawTokensF] at ht
      by_cases h1 : c = '\n' ∧ rest.head? = some '\n'
      · rw [if_pos h1] at ht
        rcases List.mem_cons.mp ht with rfl | ht2
        · refine ⟨by simp, Or.inl ?_⟩
          simp only [List.all_cons, Bool.and_eq_true]
          refine ⟨by rw [h1.1]; decide, ?_⟩
          simp only [List.all_eq_true]
          intro x hx
          have hx' := List.mem_takeWhile_imp hx
          simp only [decide_eq_true_eq] at hx'
          subst hx'
          decide
        · exact ih _ _ ht2
      · rw [if_neg h1] at ht
        by_cases h2 : c.isAlphanum = true
        · rw [if_pos h2] at ht
          rcases List.mem_cons.mp ht with rfl | ht2
          · constructor
            · simp [List.takeWhile_cons, h2]
            · right
              simp only [List.all_append, Bool.and_eq_true]
              refine ⟨⟨?_, ?_⟩, ?_⟩
              · simp only [List.all_eq_true]
                intro x hx
                have := List.mem_takeWhile_imp hx
                simp [alnum_nonspace x this]
              · exact apRunF_nonspace _ _
              · exact hyRunF_nonspace _ _
          · exact ih _ _ ht2
        · rw [if_neg h2] at ht
          by_cases h3 : c = '.' ∧ rest.take 2 = ['.', '.']
          · rw [if_pos h3] at ht
            rcases List.mem_cons.mp ht with rfl | ht2
            · exact ⟨by decide, Or.inr (by decide)⟩
            · exact ih _ _ ht2
          · rw [if_neg h3] at ht
            by_cases h4 : c = '—' ∨ c = '–'
            · rw [if_pos h4] at ht
              rcases List.mem_cons.mp ht with rfl | ht2
              · refine ⟨by simp, Or.inr ?_⟩
                rcases h4 with h5 | h5 <;> subst h5 <;> decide
              · exact ih _ _ ht2
            · rw [if_neg h4] at ht
              by_cases h5 : punctClassB c = true
              · rw [if_pos h5] at ht
                rcases List.mem_cons.mp ht with rfl | ht2
                · exact ⟨by simp, Or.inr (by simp [punct_nonspace c h5])⟩
                · exact ih _ _ ht2
              · rw [if_neg h5] at ht
                by_cases h6 : isSpaceB c = true
                · rw [if_pos h6] at ht
                  rcases List.mem_cons.mp ht with rfl | ht2
                  · refine ⟨by simp, Or.inl ?_⟩
                    simp only [List.all_cons, Bool.and_eq_true]
                    refine ⟨h6, ?_⟩
                    simp only [List.all_eq_true]
                    intro x hx
                    exact List.mem_takeWhile_imp hx
                  · exact ih _ _ ht2
                · rw [if_neg h6] at ht
                  rcases List.mem_cons.mp ht with rfl | ht2
                  · refine ⟨by simp, Or.inr ?_⟩
                    simp only [List.all_cons, List.all_nil, Bool.and_eq_true]
                    simp [h6]
                  · exact ih _ _ ht2

theorem dropWhile_all_nonspace (l : List Char)
    (h : l.all (fun c => !isSpaceB c) = true) : l.dropWhile isSpaceB = l := by
  cases l with
  | nil => rfl
  | cons c cs =>
    simp only [List.all_cons, Bool.and_eq_true, Bool.not_eq_true'] at h
    simp [List.dropWhile_cons, h.1]

theorem stripB_all_nonspace (l : List Char)
    (h : l.all (fun c => !isSpaceB c) = true) : stripB l = l := by
  unfold stripB
  rw [dropWhile_all_nonspace l h,
    dropWhile_all_nonspace l.reverse (by simpa [List.all_reverse] using h),
    List.reverse_reverse]

theorem flushCurrent_wf (tokens : List (List Char)) (cur : List Char)
    (htk : ∀ t ∈ tokens, wfTok t)
    (hcur : cur.all (fun c => !isSpaceB c) = true) :
    ∀ t ∈ flushCurrent tokens cur, wfTok t := by
  intro t ht
  unfold flushCurrent at ht
  rw [stripB_all_nonspace cur hcur] at ht
  by_cases h : cur = []
  · rw [if_pos h] at ht
    exact htk t ht
  · rw [if_neg h] at ht
    rcases List.mem_append.mp ht with h1 | h1
    · exact htk t h1
    · rcases List.mem_singleton.mp h1 with rfl
      exact ⟨h, hcur⟩

theorem appendToLast_wf : ∀ (tokens : List (List Char)) (ex : List Char),
    (∀ t ∈ tokens, wfTok t) → wfTok ex →
    ∀ t ∈ appendToLast tokens ex, wfTok t := by
  intro tokens
  induction tokens with
  | nil =>
    intro ex _ hex t ht
    simp only [appendToLast, List.mem_singleton] at ht
    subst ht
    exact hex
  | cons x xs ih =>
    intro ex htk hex t ht
    cases xs with
    | nil =>
      simp only [appendToLast, List.mem_singleton] at ht
      subst ht
      constructor
      · intro hc
        rw [List.append_eq_nil] at hc
        exact (htk x (by simp)).1 hc.1
      · rw [List.all_append, Bool.and_eq_true]
        exact ⟨(htk x (by simp)).2, hex.2⟩
    | cons y ys =>
      simp only [appendToLast] at ht
      rcases List.mem_cons.mp ht with rfl | ht2
      · exact htk t (by simp)
      · exact ih ex (fun u hu => htk u (by simp [hu])) hex t ht2

theorem tkLoop_cons (tok : List Char) (raw tokens : List (List Char))
    (current : List Char) :
    tkLoop (tok :: raw) tokens current =
      if tok = [] then tkLoop raw tokens current
      else if pyIsSpace tok then
        if containsNlNl tok then
          tkLoop raw (flushCurrent tokens current ++ [paraTok]) []
        else tkLoop raw (flushCurrent tokens current) []
      else if tok ∈ punctSetS1 then
        if current ≠ [] then tkLoop raw (flushCurrent tokens (current ++ tok)) []
        else if tokens ≠ [] ∧ tokens.getLast? ≠ some paraTok then
          tkLoop raw (appendToLast tokens tok) current
        else tkLoop raw (tokens ++ [tok]) current
      else if tok ∈ openSetS2 then tkLoop raw tokens (current ++ tok)
      else if tok ∈ closeSetS3 then
        if current ≠ [] then tkLoop raw (flushCurrent tokens (current ++ tok)) []
        else if tokens ≠ [] ∧ tokens.getLast? ≠ some paraTok then
          tkLoop raw (appendToLast tokens tok) current
        else tkLoop raw (tokens ++ [tok]) current
      else tkLoop raw (flushCurrent tokens (current ++ tok)) [] := rfl

theorem paraTok_wf : wfTok paraTok := by
  simp only [wfTok]
  decide

theorem wf_append_tokens {tokens : List (List Char)} {ex : List Char}
    (htk : ∀ t ∈ tokens, wfTok t) (hex : wfTok ex) :
    ∀ t ∈ tokens ++ [ex], wfTok t := by
  intro t ht
  rcases List.mem_append.mp ht with h1 | h1
  · exact htk t h1
  · rcases List.mem_singleton.mp h1 with rfl
    exact hex

theorem tkLoop_wf : ∀ (raw tokens : List (List Char)) (current : List Char),
    (∀ tok ∈ raw,
      tok.all isSpaceB = true ∨ tok.all (fun c => !isSpaceB c) = true) →
    (∀ t ∈ tokens, wfTok t) → current.all (fun c => !isSpaceB c) = true →
    ∀ t ∈ tkLoop raw tokens current, wfTok t := by
  intro raw
  induction raw with
  | nil =>
    intro tokens current _ htk hcur t ht
    exact flushCurrent_wf tokens current htk hcur t ht
  | cons tok raw ih =>
    intro tokens current hraw htk hcur t ht
    have hraw' : ∀ x ∈ raw,
        x.all isSpaceB = true ∨ x.all (fun c => !isSpaceB c) = true :=
      fun x hx => hraw x (by simp [hx])
    have htokH := hraw tok (by simp)
    rw [tkLoop_cons] at ht
    by_cases h0 : tok = []
    · rw [if_pos h0] at ht
      exact ih tokens current hraw' htk hcur t ht
    · rw [if_neg h0] at ht
      by_cases hsp : pyIsSpace tok = true
      · rw [if_pos hsp] at ht
        by_cases hnl : containsNlNl tok = true
        · rw [if_pos hnl] at ht
          exact ih _ [] hraw'
            (wf_append_tokens (flushCurrent_wf tokens current htk hcur) paraTok_wf)
            rfl t ht
        · rw [if_neg hnl] at ht
          exact ih _ [] hraw' (flushCurrent_wf tokens current htk hcur) rfl t ht
      · rw [if_neg hsp] at ht
        have htoknsp : tok.all (fun c => !isSpaceB c) = true := by
          rcases htokH with hs1 | hs1
          · exfalso
            apply hsp
            unfold pyIsSpace
            rw [hs1, Bool.and_true]
            simpa using h0
          · exact hs1
        have htokwf : wfTok tok := ⟨h0, htoknsp⟩
        have hcat : (current ++ tok).all (fun c => !isSpaceB c) = true := by
          rw [List.all_append, Bool.and_eq_true]
          exact ⟨hcur, htoknsp⟩
        by_cases hm1 : tok ∈ punctSetS1
        · rw [if_pos hm1] at ht
          by_cases hc : current ≠ []
          · rw [if_pos hc] at ht
            exact ih _ [] hraw' (flushCurrent_wf tokens (current ++ tok) htk hcat)
              rfl t ht
          · rw [if_neg hc] at ht
            by_cases htl : tokens ≠ [] ∧ tokens.getLast? ≠ some paraTok
            · rw [if_pos htl] at ht
              exact ih _ current hraw' (appendToLast_wf tokens tok htk htokwf)
                hcur t ht
            · rw [if_neg htl] at ht
              exact ih _ current hraw' (wf_append_tokens htk htokwf) hcur t ht
        · rw [if_neg hm1] at ht
          by_cases hm2 : tok ∈ openSetS2
          · rw [if_pos hm2] at ht
            exact ih tokens (current ++ tok) hraw' htk hcat t ht
          · rw [if_neg hm2] at ht
            by_cases hm3 : tok ∈ closeSetS3
            · rw [if_pos hm3] at ht
              by_cases hc : current ≠ []
              · rw [if_pos hc] at ht
                exact ih _ [] hraw'
                  (flushCurrent_wf tokens (current ++ tok) htk hcat) rfl t ht
              · rw [if_neg hc] at ht
                by_cases htl : tokens ≠ [] ∧ tokens.getLast? ≠ some paraTok
                · rw [if_pos htl] at ht
                  exact ih _ current hraw' (appendToLast_wf tokens tok htk htokwf)
                    hcur t ht
                · rw [if_neg htl] at ht
                  exact ih _ current hraw' (wf_append_tokens htk htokwf) hcur t ht
            · rw [if_neg hm3] at ht
              exact ih _ [] hraw'
                (flushCurrent_wf tokens (current ++ tok) htk hcat) rfl t ht

theorem compactGo_wf : ∀ (ts acc : List (List Char)),
    (∀ t ∈ acc, wfTok t) → (∀ t ∈ ts, wfTok t) →
    ∀ t ∈ compactGo acc ts, wfTok t := by
  intro ts
  induction ts with
  | nil => intro acc hacc _ t ht; exact hacc t ht
  | cons x xs ih =>
    intro acc hacc hts t ht
    simp only [compactGo] at ht
    by_cases h : x = paraTok ∧ acc.getLast? = some paraTok
    · rw [if_pos h] at ht
      exact ih acc hacc (fun u hu => hts u (by simp [hu])) t ht
    · rw [if_neg h] at ht
      refine ih (acc ++ [x]) (wf_append_tokens hacc (hts x (by simp)))
        (fun u hu => hts u (by simp [hu])) t ht

theorem tokenize_wf (text : List Char) : ∀ t ∈ tokenize_for_rsvp text, wfTok t := by
  intro t ht
  unfold tokenize_for_rsvp at ht
  refine compactGo_wf _ [] (by simp) ?_ t ht
  intro u hu
  refine tkLoop_wf _ [] [] ?_ (by simp) rfl u hu
  intro tok htok
  unfold split_preserving_whitespace at htok
  exact (rawTokensF_homog _ _ tok htok).2

/-- C1 amended: for every input text and chunk-builder configuration,
concatenating the non-paragraph chunk texts of
`build_chunks(tokenize_for_rsvp(text))` in order (with single spaces, as the
chunks themselves join tokens) and splitting on whitespace yields exactly
`tokenize_for_rsvp(text)` with paragraph markers removed AND — when the
skip-URLs flag is set — URL-like tokens removed as well.  The claim as
stated, which keeps URL-like tokens for every configuration, fails (see the
counterexample). -/
theorem C1_roundtrip_amended (text : List Char) (n : Nat) (pm su : Bool) :
    splitWs (joinSp ((build_chunks (tokenize_for_rsvp text) n pm su).filter notParaB)) =
      (if su then (tokenize_for_rsvp text).filter urlKeepB
       else tokenize_for_rsvp text).filter notParaB := by
  rw [splitWs_joinSp_flat]
  unfold build_chunks
  by_cases h : (if su then (tokenize_for_rsvp text).filter urlKeepB
      else tokenize_for_rsvp text) = []
  · rw [if_pos h, h]
    simp
  · rw [if_neg h]
    have hwf2 : ∀ t ∈ (if su then (tokenize_for_rsvp text).filter urlKeepB
        else tokenize_for_rsvp text), wfTok t := by
      intro t ht
      cases su with
      | true =>
        simp only [if_true] at ht
        exact tokenize_wf text t (List.mem_of_mem_filter ht)
      | false =>
        simp only [if_false] at ht
        exact tokenize_wf text t ht
    cases pm with
    | true =>
      rw [if_pos rfl]
      simpa using phraseGo_roundtrip n _ [] hwf2 (by simp)
    | false =>
      rw [if_neg (by simp)]
      simpa using fixedGo_roundtrip n _ [] hwf2 (by simp)

/-- C1 counterexample: the text "www.." tokenizes to the single token
"www.." (the tokenizer attaches the trailing dots to the word), which
matches the URL regex `www\.\S+`; with skip-URLs enabled `build_chunks`
drops it, so the concatenated chunks give back the empty word sequence, not
the token sequence with paragraph markers removed. -/
theorem C1_counterexample :
    tokenize_for_rsvp exWwwDots = [exWwwDots] ∧
    isUrlLike exWwwDots = true ∧
    build_chunks (tokenize_for_rsvp exWwwDots) 1 false true = [] ∧
    splitWs (joinSp ((build_chunks (tokenize_for_rsvp exWwwDots) 1 false true).filter
      notParaB)) ≠ (tokenize_for_rsvp exWwwDots).filter notParaB := by
  decide
